import Mathlib

set_option autoImplicit false

namespace Resqpy

/-! Shallow embedding of the resqpy identity / consolidation / property core.

The functions `equivalent_chrono_pairs`, `equivalent_extra_metadata`,
`extract_has_occurred_during` and `create_xml_has_occurred_during` are
translated from `resqpy/organize/organize_old.py`.  Components whose
implementation files are not in the sampled sources (the copy/consolidation
engine, the graph extractor, `PropertyKind`, `StringLookup` and the
unit-of-measure validation) are modelled from the specification and from the
repository's own tests, as noted on each definition. -/

/-- A Python dict of string keys and values, in insertion order.
Well-formed dictionaries have pairwise distinct keys. -/
abbrev MetaDict := List (String × String)

/-- First value stored under key `k`, mirroring Python dict lookup
(on a well-formed dict the key occurs at most once). -/
def dict_get {α β : Type} [DecidableEq α] (k : α) : List (α × β) → Option β
  | [] => none
  | kv :: rest => if kv.1 = k then some kv.2 else dict_get k rest

/-- Python `==` on dicts: mutual key/value containment (which, for dicts with
distinct keys, is exactly equality as key-to-value mappings). -/
def dict_eq (a b : MetaDict) : Bool :=
  (a.all fun kv => dict_get kv.1 b == some kv.2) &&
    (b.all fun kv => dict_get kv.1 a == some kv.2)

/-- A chronostratigraphy pair argument: Python `None`, or a tuple of two
optional UUIDs (here UUIDs are strings).  `some (none, none)` is the
missing-pair sentinel `(None, None)`. -/
abbrev ChronoPair := Option (Option String × Option String)

/-- From `organize_old.py`: `equivalent_chrono_pairs(pair_a, pair_b, model)`.
The `model` branch of the source is a `pass` placeholder and has no effect. -/
def equivalent_chrono_pairs (pair_a pair_b : ChronoPair) (model : Option Unit) : Bool :=
  if pair_a = pair_b then true
  else if pair_a = none || pair_b = none then false
  else if pair_a = some (none, none) || pair_b = some (none, none) then false
  else false  -- cautious

/-- An object handed to `equivalent_extra_metadata`: `extra_metadata` is
`some em` exactly when the Python attribute exists; `root_metadata` models the
result of `rqet.load_metadata_from_xml(x.root)` (possibly `None`). -/
structure EmObject where
  extra_metadata : Option MetaDict
  root_metadata : Option MetaDict

/-- The `(x_em, x_has)` pair computed for one side in
`equivalent_extra_metadata`: the metadata bag used for comparison and the
has-populated-metadata flag. -/
def em_pair (x : EmObject) : Option MetaDict × Bool :=
  match x.extra_metadata with
  | some em => (some em, decide (0 < em.length))
  | none =>
    match x.root_metadata with
    | some em => (some em, decide (0 < em.length))
    | none => (none, false)

/-- Python `==` lifted to the optional bags compared at the end of
`equivalent_extra_metadata` (`None == None` is `True` in Python). -/
def option_dict_eq : Option MetaDict → Option MetaDict → Bool
  | some a, some b => dict_eq a b
  | none, none => true
  | _, _ => false

/-- From `organize_old.py`: `equivalent_extra_metadata(a, b)`. -/
def equivalent_extra_metadata (a b : EmObject) : Bool :=
  let ap := em_pair a
  let bp := em_pair b
  if ap.2 != bp.2 then false
  else if !ap.2 then true
  else option_dict_eq ap.1 bp.1

/-- A side has populated ("present and non-empty") extra metadata. -/
def em_populated (x : EmObject) : Bool := (em_pair x).2

/-- The metadata bag a side contributes to the final comparison. -/
def em_effective (x : EmObject) : Option MetaDict := (em_pair x).1

/-- Well-formedness: any metadata dict carried by the object has pairwise
distinct keys (always true of Python dicts). -/
def WellFormedEm (x : EmObject) : Prop :=
  ((x.extra_metadata.getD []).map Prod.fst).Nodup ∧
    ((x.root_metadata.getD []).map Prod.fst).Nodup

/-! XML document model (the structured-metadata-document collaborator of the
spec, consumed through `find_tag` / `find_nested_tags_text` /
`SubElement` / `create_ref_node`). -/

/-- An XML element: tag, attributes, text and ordered children. -/
inductive XmlNode where
  | node (tag : String) (attrs : List (String × String)) (text : String)
      (children : List XmlNode)

def XmlNode.tag : XmlNode → String
  | .node t _ _ _ => t

def XmlNode.attrs : XmlNode → List (String × String)
  | .node _ a _ _ => a

def XmlNode.text : XmlNode → String
  | .node _ _ x _ => x

def XmlNode.children : XmlNode → List XmlNode
  | .node _ _ _ c => c

/-- Appending a sub-element, as `rqet.SubElement(parent, ...)` does. -/
def XmlNode.append_child : XmlNode → XmlNode → XmlNode
  | .node t a x cs, c => .node t a x (cs ++ [c])

/-- Modelled from the spec: `rqet.find_tag` returns the first child of the
parent with the given tag, or `None`; a `None` parent yields `None`. -/
def find_tag (parent : Option XmlNode) (tag : String) : Option XmlNode :=
  match parent with
  | none => none
  | some p => p.children.find? fun c => c.tag == tag

/-- Modelled from the spec: `rqet.find_nested_tags_text` walks the tag path
with `find_tag` and returns the text of the node reached, or `None`. -/
def find_nested_tags_text (parent : Option XmlNode) (path : List String) : Option String :=
  match path.foldl find_tag parent with
  | none => none
  | some n => some n.text

/-- Modelled from the spec: `rqet.null_xml_text`, the designated
null/placeholder marker used as the text of reference-shaped nodes. -/
def null_xml_text : String := "\n"

/-- Modelled from the spec: the `xsi` curly namespace prefix of
`resqpy.olio.xml_namespaces`. -/
def ns_xsi : String := "\x7bhttp://www.w3.org/2001/XMLSchema-instance\x7d"

/-- Modelled from the spec: the `resqml2` curly namespace prefix. -/
def ns_resqml2 : String := "\x7bhttp://www.energistics.org/energyml/data/resqmlv2\x7d"

/-- The slice of a `Model` that `create_xml_has_occurred_during` consults:
`model.title_for_root(model.root_for_uuid(u))`, i.e. a title per UUID. -/
structure RqModel where
  titles : List (String × String)

def title_for_uuid (m : RqModel) (u : String) : String :=
  (dict_get u m.titles).getD ""

/-- Modelled from the spec: `model.create_ref_node(flavour, title, uuid)`
builds a tagged element whose attributes declare a type, whose text is the
null/placeholder marker, and whose children carry the human-readable title
and the target identifier. -/
def create_ref_node (flavour title uuid : String) : XmlNode :=
  .node flavour [(ns_xsi ++ "type", "DataObjectReference")] null_xml_text
    [.node "Title" [] title [], .node "UUID" [] uuid []]

/-- From `organize_old.py`: `extract_has_occurred_during(parent_node, tag)`. -/
def extract_has_occurred_during (parent_node : XmlNode) (tag : String) :
    Option String × Option String :=
  match find_tag (some parent_node) tag with
  | none => (none, none)
  | some hod_node =>
    (find_nested_tags_text (some hod_node) ["ChronoBottom", "UUID"],
      find_nested_tags_text (some hod_node) ["ChronoTop", "UUID"])

/-- The sub-node appended by `create_xml_has_occurred_during` when both chrono
UUIDs are present. -/
def hod_node_for (m : RqModel) (tag base top : String) : XmlNode :=
  .node tag [(ns_xsi ++ "type", ns_resqml2 ++ "TimeInterval")] null_xml_text
    [create_ref_node "ChronoBottom" (title_for_uuid m base) base,
      create_ref_node "ChronoTop" (title_for_uuid m top) top]

/-- From `organize_old.py`: `create_xml_has_occurred_during(model, parent_node,
hod_pair, tag)`; the mutated parent is returned. -/
def create_xml_has_occurred_during (m : RqModel) (parent_node : XmlNode)
    (hod_pair : ChronoPair) (tag : String) : XmlNode :=
  match hod_pair with
  | none => parent_node
  | some (base_chrono_uuid, top_chrono_uuid) =>
    match base_chrono_uuid, top_chrono_uuid with
    | some b, some t => parent_node.append_child (hod_node_for m tag b t)
    | _, _ => parent_node

/-! Parts, the consolidating copy engine and the graph extractor.  The
implementations (`resqpy/model.py`, `resqpy/olio/consolidation.py`) are not in
the sampled sources; they are modelled from spec sections 3, 4.4 and 4.6 and
from `tests/test_model.py`. -/

/-- Modelled from the spec: a part of the Part Store, reduced to the fields
the sampled claims consult — identifier, declared type, title and the list of
identifiers its document references. -/
structure Part where
  uuid : Nat
  type_tag : String
  title : String
  refs : List Nat
deriving DecidableEq

/-- The search the Consolidator runs against the target store: an existing
part of the same type that the Equivalence Classifier `equiv` accepts. -/
def equiv_match (equiv : Part → Part → Bool) (p t : Part) : Bool :=
  (t.type_tag == p.type_tag) && equiv p t

/-- Modelled from the spec: step 3 of `copy_parts` — for each donor part, the
recorded mapping entry `donor_identifier -> surviving_identifier` (the found
equivalent's identifier, or the donor's own as the identity mapping). -/
def consolidation_map (target donor : List Part) (equiv : Part → Part → Bool) :
    List (Nat × Nat) :=
  donor.map fun p =>
    match target.find? (equiv_match equiv p) with
    | some t => (p.uuid, t.uuid)
    | none => (p.uuid, p.uuid)

/-- Rewriting one reference through the mapping table: identifiers without an
entry are left unchanged. -/
def apply_map (m : List (Nat × Nat)) (r : Nat) : Nat :=
  (dict_get r m).getD r

/-- Modelled from the spec: `copy_parts(source_store, consolidate)` of section
4.6 — with consolidation off, a pure append; with it on, donor parts with an
equivalent already in the target are elided, and after the full mapping table
is known every reference of every copied part is rewritten through it. -/
def copy_parts (target donor : List Part) (consolidate : Bool)
    (equiv : Part → Part → Bool) : List Part :=
  if consolidate then
    let m := consolidation_map target donor equiv
    target ++
      ((donor.filter fun p => (target.find? (equiv_match equiv p)).isNone).map
        fun p => { p with refs := p.refs.map (apply_map m) })
  else target ++ donor

/-- Identifiers adjacent to `u` over the undirected reference relation:
identifiers that `u`'s part references, and identifiers of parts that
reference `u`. -/
def related_uuids (store : List Part) (u : Nat) : List Nat :=
  (store.filter fun p => p.uuid == u).flatMap Part.refs ++
    (store.filter fun p => p.refs.contains u).map Part.uuid

/-- An unordered identifier pair, normalised for deduplication (the model of
the Python `frozenset` edges). -/
def norm_pair (a b : Nat) : Nat × Nat :=
  if a ≤ b then (a, b) else (b, a)

/-- Modelled from the spec: `Model.as_graph(uuids_subset)` of section 4.4,
with the subset behaviour fixed by `tests/test_model.py::test_model_as_graph`
(the subset restricts both nodes and edges to the given identifiers; the
assertion there is one node and zero edges for a single-datum subset).
Nodes are the parts retained; edges are deduplicated unordered pairs. -/
def as_graph (store : List Part) (uuids_subset : Option (List Nat)) :
    List Part × List (Nat × Nat) :=
  let subset := match uuids_subset with
    | none => store.map Part.uuid
    | some s => s
  let nodes := store.filter fun p => subset.contains p.uuid
  let edges := (nodes.flatMap fun p =>
    (related_uuids store p.uuid).filterMap fun r =>
      if subset.contains r then some (norm_pair p.uuid r) else none).dedup
  (nodes, edges)

/-- One breadth-first expansion step over the undirected adjacency. -/
def expand_frontier (store : List Part) (fr : List Nat) : List Nat :=
  (fr ++ fr.flatMap (related_uuids store)).dedup

/-- Modelled from the spec: the seeded traversal the spec's section 4.4
describes — breadth-first over the undirected adjacency, collecting every
identifier transitively connected to a seed (iterating one expansion per part
reaches the fixpoint). -/
def reachable_uuids (store : List Part) (seeds : List Nat) : List Nat :=
  (expand_frontier store)^[store.length] seeds

/-! PropertyKind, StringLookup and unit-of-measure validation.  Their
implementations (`resqpy/property.py`, `resqpy/olio/weights_and_measures.py`)
are not in the sampled sources; they are modelled from spec sections 3, 4.5,
4.7 and 8 and from `tests/test_property.py`. -/

/-- Modelled from the spec: a bespoke `PropertyKind` part — a title, the
declared parent property kind (the constructor default is `continuous`), and
an extra-metadata bag. -/
structure PropertyKind where
  title : String
  parent_property_kind : String
  extra_metadata : MetaDict
deriving DecidableEq

/-- Modelled from the spec and from
`tests/test_property.py::test_bespoke_property_kind`: the equivalence rule
under which `create_xml` reuses an already-registered bespoke property kind.
The test's pk5 step (same title and metadata as pk1 but parent `discrete`)
creates a new part, so the declared parent participates in the rule alongside
title and extra metadata. -/
def pk_is_equivalent (a b : PropertyKind) : Bool :=
  a.title == b.title && a.parent_property_kind == b.parent_property_kind &&
    dict_eq a.extra_metadata b.extra_metadata

/-- The rule as the spec's words state it (section 4.5): title and extra
metadata only, the declared parent not consulted.  Kept for comparison with
`pk_is_equivalent`. -/
def pk_is_equivalent_spec (a b : PropertyKind) : Bool :=
  a.title == b.title && dict_eq a.extra_metadata b.extra_metadata

/-- Registering one property kind: reuse when an equivalent part is already
present, otherwise append. -/
def register_pk (rule : PropertyKind → PropertyKind → Bool)
    (parts : List PropertyKind) (p : PropertyKind) : List PropertyKind :=
  if parts.any (rule p) then parts else parts ++ [p]

/-- Registering a sequence of property kinds into an empty model. -/
def register_all_pk (rule : PropertyKind → PropertyKind → Bool)
    (ps : List PropertyKind) : List PropertyKind :=
  ps.foldl (register_pk rule) []

/-- Modelled from the spec: a `StringLookup` part holds the inserted
integer-to-string mapping in insertion order. -/
structure StringLookup where
  int_to_str : List (Nat × String)
deriving DecidableEq

/-- Modelled from the spec: the mapping is stored densely exactly when its
keys are `0 .. n-1` (for a well-formed mapping with distinct keys, checking
that each key is below the entry count decides this). -/
def StringLookup.stored_as_list (sl : StringLookup) : Bool :=
  sl.int_to_str.all fun kv => kv.1 < sl.int_to_str.length

/-- The dense representation: an ordered sequence indexed by `0 .. n-1`. -/
def StringLookup.str_list (sl : StringLookup) : List String :=
  (List.range sl.int_to_str.length).map fun i => (dict_get i sl.int_to_str).getD ""

/-- Modelled from the spec: `get_string(k)` answers from whichever
representation is in use — the dense list by position, the sparse dict by
key — returning `None` for an integer not present. -/
def StringLookup.get_string (sl : StringLookup) (k : Nat) : Option String :=
  if sl.stored_as_list then sl.str_list[k]?
  else dict_get k sl.int_to_str

/-- Modelled from the spec: `get_index_for_string(s)` returns the first key
mapped to `s`, or `None`. -/
def StringLookup.get_index_for_string (sl : StringLookup) (s : String) : Option Nat :=
  (sl.int_to_str.find? fun kv => kv.2 == s).map Prod.fst

/-- Modelled from the spec: the canonical units-of-measure dictionary (a pure
lookup table); the slice exercised by the sampled tests, including the
dimensionless fallback `Euc`. -/
def uom_dictionary : List String :=
  ["m", "ft", "bar", "m3/m3", "gAPI", "gal[UK]/mi", "Euc"]

/-- ASCII lowercasing of one character, as Python `str.lower` acts on the
characters occurring in unit strings. -/
def char_lower (c : Char) : Char :=
  if 65 ≤ c.toNat ∧ c.toNat ≤ 90 then Char.ofNat (c.toNat + 32) else c

/-- Lowercasing a string character by character. -/
def str_lower (s : String) : String :=
  String.mk (s.data.map char_lower)

/-- Modelled from the spec: `validate_uom_from_string(uom, case_sensitive)` —
a recognised unit (case-insensitively unless `case_sensitive`) maps to its
canonical form; `None`, empty or unrecognised input maps to the dimensionless
canonical unit `Euc` rather than failing. -/
def validate_uom_from_string (uom : Option String) (case_sensitive : Bool) : String :=
  match uom with
  | none => "Euc"
  | some s =>
    if s = "" then "Euc"
    else if case_sensitive then
      if uom_dictionary.contains s then s else "Euc"
    else
      match uom_dictionary.find? fun u => str_lower u == str_lower s with
      | some u => u
      | none => "Euc"

/-! Helper lemmas about dict lookups and the metadata comparison. -/

theorem dict_get_mem {α β : Type} [DecidableEq α] {k : α} {v : β} :
    ∀ {l : List (α × β)}, dict_get k l = some v → (k, v) ∈ l := by
  intro l
  induction l with
  | nil => intro h; cases h
  | cons kv rest ih =>
    obtain ⟨a, b⟩ := kv
    intro h
    rw [dict_get] at h
    by_cases hk : a = k
    · rw [if_pos hk] at h
      injection h with hv
      rw [← hk, ← hv]
      exact List.mem_cons_self _ _
    · rw [if_neg hk] at h
      exact List.mem_cons_of_mem _ (ih h)

theorem dict_get_of_mem_nodup {α β : Type} [DecidableEq α] {k : α} {v : β} :
    ∀ {l : List (α × β)}, (l.map Prod.fst).Nodup → (k, v) ∈ l → dict_get k l = some v := by
  intro l
  induction l with
  | nil => intro _ h; cases h
  | cons kv rest ih =>
    obtain ⟨a, b⟩ := kv
    intro hnd hmem
    rw [List.map_cons, List.nodup_cons] at hnd
    rcases List.mem_cons.mp hmem with heq | htail
    · injection heq with h1 h2
      rw [dict_get, if_pos h1.symm, h2]
    · have hk : a ≠ k := by
        intro hak
        exact hnd.1 (hak ▸ (List.mem_map.mpr ⟨(k, v), htail, rfl⟩))
      rw [dict_get, if_neg hk]
      exact ih hnd.2 htail

theorem dict_get_eq_none {α β : Type} [DecidableEq α] {k : α} :
    ∀ {l : List (α × β)}, dict_get k l = none ↔ k ∉ l.map Prod.fst := by
  intro l
  induction l with
  | nil => simp [dict_get]
  | cons kv rest ih =>
    obtain ⟨a, b⟩ := kv
    by_cases hk : a = k
    · simp [dict_get, hk]
    · simp [dict_get, hk, ih, Ne.symm hk]

theorem dict_eq_symm (a b : MetaDict) : dict_eq a b = dict_eq b a :=
  Bool.and_comm _ _

theorem dict_eq_refl {a : MetaDict} (h : (a.map Prod.fst).Nodup) : dict_eq a a = true := by
  rw [dict_eq, Bool.and_self, List.all_eq_true]
  intro kv hkv
  have := dict_get_of_mem_nodup h (l := a) (k := kv.1) (v := kv.2) ?_
  · simp [this]
  · exact hkv

theorem dict_eq_iff_lookup {a b : MetaDict} (ha : (a.map Prod.fst).Nodup)
    (hb : (b.map Prod.fst).Nodup) :
    dict_eq a b = true ↔ ∀ k, dict_get k a = dict_get k b := by
  rw [dict_eq, Bool.and_eq_true, List.all_eq_true, List.all_eq_true]
  constructor
  · rintro ⟨hab, hba⟩ k
    cases hga : dict_get k a with
    | some v =>
      have := hab (k, v) (dict_get_mem hga)
      simp only [beq_iff_eq] at this
      rw [this]
    | none =>
      cases hgb : dict_get k b with
      | some v =>
        have := hba (k, v) (dict_get_mem hgb)
        simp only [beq_iff_eq] at this
        rw [this] at hga
        cases hga
      | none => rfl
  · intro h
    constructor
    · intro kv hkv
      have : dict_get kv.1 a = some kv.2 := dict_get_of_mem_nodup ha ?_
      · simp [← h kv.1, this]
      · exact hkv
    · intro kv hkv
      have : dict_get kv.1 b = some kv.2 := dict_get_of_mem_nodup hb ?_
      · simp [h kv.1, this]
      · exact hkv

theorem option_dict_eq_symm (x y : Option MetaDict) :
    option_dict_eq x y = option_dict_eq y x := by
  cases x <;> cases y <;> simp [option_dict_eq, dict_eq_symm]

/-- When a side has populated metadata, its effective bag is a present dict,
and well-formedness gives its keys are distinct. -/
theorem em_effective_of_populated {x : EmObject} (hx : WellFormedEm x)
    (hp : em_populated x = true) :
    ∃ em, em_effective x = some em ∧ (em.map Prod.fst).Nodup := by
  obtain ⟨h1, h2⟩ := hx
  unfold em_populated em_effective em_pair at *
  cases hxe : x.extra_metadata with
  | some em => exact ⟨em, by simp [hxe], by simpa [hxe] using h1⟩
  | none =>
    cases hxr : x.root_metadata with
    | some em => exact ⟨em, by simp [hxe, hxr], by simpa [hxr] using h2⟩
    | none => simp [hxe, hxr] at hp

/-! Claim theorems. -/

/-- Claim C2, counterexample: when both sides are the missing-pair sentinel
`(None, None)`, `equivalent_chrono_pairs` reports equivalence — the initial
`pair_a == pair_b` short-circuit fires before the sentinel checks — refuting
the claim that it returns false whenever either side is the sentinel,
including when both sides are. -/
theorem chrono_sentinel_counterexample :
    equivalent_chrono_pairs (some (none, none)) (some (none, none)) none = true := by
  decide

/-- Claim C2 (amended): when at least one side is the missing-pair sentinel
`(None, None)`, `equivalent_chrono_pairs` returns true exactly when the two
sides are equal (both the sentinel); when exactly one side is the sentinel it
returns false. -/
theorem chrono_sentinel_equivalence (pa pb : ChronoPair) (m : Option Unit)
    (h : pa = some (none, none) ∨ pb = some (none, none)) :
    equivalent_chrono_pairs pa pb m = true ↔ pa = pb := by
  by_cases hab : pa = pb
  · simp [equivalent_chrono_pairs, hab]
  · simp only [equivalent_chrono_pairs, if_neg hab]
    constructor
    · intro hfalse
      rcases h with h | h <;> simp [h] at hfalse
    · intro heq
      exact absurd heq hab

/-- Witness for the amended claim C2 at the two-sentinel input. -/
theorem chrono_sentinel_equivalence_witness :
    equivalent_chrono_pairs (some (none, none)) (some (none, none)) none = true :=
  (chrono_sentinel_equivalence (some (none, none)) (some (none, none)) none
    (Or.inl rfl)).mpr rfl

/-- Claim C5: `equivalent_extra_metadata(a, b)` is true exactly when both
sides' extra metadata is absent or empty, or both sides are populated and
their bags agree as key/value mappings; an absent-or-empty side is never
equivalent to a populated side. -/
theorem equivalent_extra_metadata_spec (a b : EmObject)
    (ha : WellFormedEm a) (hb : WellFormedEm b) :
    equivalent_extra_metadata a b = true ↔
      ((em_populated a = false ∧ em_populated b = false) ∨
        (em_populated a = true ∧ em_populated b = true ∧
          ∃ ea eb, em_effective a = some ea ∧ em_effective b = some eb ∧
            ∀ k, dict_get k ea = dict_get k eb)) := by
  have hdef : equivalent_extra_metadata a b =
      (if em_populated a != em_populated b then false
        else if !em_populated a then true
        else option_dict_eq (em_effective a) (em_effective b)) := rfl
  rw [hdef]
  cases hpa : em_populated a <;> cases hpb : em_populated b <;> simp
  · obtain ⟨ea, hea, hna⟩ := em_effective_of_populated ha hpa
    obtain ⟨eb, heb, hnb⟩ := em_effective_of_populated hb hpb
    simp only [hea, heb, option_dict_eq, Option.some.injEq]
    constructor
    · intro hde
      exact ⟨ea, rfl, eb, rfl, (dict_eq_iff_lookup hna hnb).mp hde⟩
    · rintro ⟨ea', rfl, eb', rfl, hk⟩
      exact (dict_eq_iff_lookup hna hnb).mpr hk

/-- Witness for claim C5: a side carrying the attribute and a side loading the
same bag from its document are equivalent, and the classification matches. -/
theorem equivalent_extra_metadata_spec_witness :
    equivalent_extra_metadata ⟨some [("k", "v")], none⟩ ⟨none, some [("k", "v")]⟩ = true ↔
      ((em_populated ⟨some [("k", "v")], none⟩ = false ∧
          em_populated ⟨none, some [("k", "v")]⟩ = false) ∨
        (em_populated ⟨some [("k", "v")], none⟩ = true ∧
          em_populated ⟨none, some [("k", "v")]⟩ = true ∧
          ∃ ea eb, em_effective ⟨some [("k", "v")], none⟩ = some ea ∧
            em_effective ⟨none, some [("k", "v")]⟩ = some eb ∧
            ∀ k, dict_get k ea = dict_get k eb)) :=
  equivalent_extra_metadata_spec _ _ (by unfold WellFormedEm; simp)
    (by unfold WellFormedEm; simp)

/-- Claim C6: both registered rules in the sampled source are reflexive and
symmetric — `equivalent_chrono_pairs(p, p)` is true and the function is
symmetric in its pair arguments, and `equivalent_extra_metadata(a, a)` is true
for well-formed objects and the function is symmetric. -/
theorem equivalence_rules_refl_symm :
    (∀ (pa : ChronoPair) (m : Option Unit), equivalent_chrono_pairs pa pa m = true) ∧
    (∀ (pa pb : ChronoPair) (m : Option Unit),
      equivalent_chrono_pairs pa pb m = equivalent_chrono_pairs pb pa m) ∧
    (∀ a : EmObject, WellFormedEm a → equivalent_extra_metadata a a = true) ∧
    (∀ a b : EmObject, equivalent_extra_metadata a b = equivalent_extra_metadata b a) := by
  refine ⟨?_, ?_, ?_, ?_⟩
  · intro pa m
    simp [equivalent_chrono_pairs]
  · intro pa pb m
    by_cases hab : pa = pb
    · rw [hab]
    · simp only [equivalent_chrono_pairs, if_neg hab, if_neg (Ne.symm hab)]
      rw [Bool.or_comm, Bool.or_comm (pa = some (none, none) : Bool)]
  · intro a ha
    have hdef : equivalent_extra_metadata a a =
        (if em_populated a != em_populated a then false
          else if !em_populated a then true
          else option_dict_eq (em_effective a) (em_effective a)) := rfl
    rw [hdef, bne_self_eq_false]
    cases hpa : em_populated a
    · simp
    · obtain ⟨ea, hea, hna⟩ := em_effective_of_populated ha hpa
      simp [hea, option_dict_eq, dict_eq_refl hna]
  · intro a b
    have hdef : ∀ x y : EmObject, equivalent_extra_metadata x y =
        (if em_populated x != em_populated y then false
          else if !em_populated x then true
          else option_dict_eq (em_effective x) (em_effective y)) := fun _ _ => rfl
    rw [hdef, hdef]
    cases hpa : em_populated a <;> cases hpb : em_populated b <;>
      simp [option_dict_eq_symm]

/-- Witness for claim C6 at a concrete well-formed object. -/
theorem equivalence_rules_refl_symm_witness :
    equivalent_extra_metadata ⟨some [("k", "v")], none⟩ ⟨some [("k", "v")], none⟩ = true :=
  equivalence_rules_refl_symm.2.2.1 _ (by unfold WellFormedEm; simp)

/-- Claim C10: `create_xml_has_occurred_during` leaves the parent node fully
unchanged when the chrono pair is `None` or either UUID in it is `None`, and
otherwise appends exactly one sub-node to the parent, touching neither its
tag, attributes nor text. -/
theorem create_xml_has_occurred_during_frame :
    ∀ (m : RqModel) (parent : XmlNode) (tag : String),
      create_xml_has_occurred_during m parent none tag = parent ∧
      (∀ t, create_xml_has_occurred_during m parent (some (none, t)) tag = parent) ∧
      (∀ b, create_xml_has_occurred_during m parent (some (b, none)) tag = parent) ∧
      (∀ b t, create_xml_has_occurred_during m parent (some (some b, some t)) tag =
        XmlNode.node parent.tag parent.attrs parent.text
          (parent.children ++ [hod_node_for m tag b t])) := by
  intro m parent tag
  refine ⟨rfl, ?_, ?_, ?_⟩
  · intro t
    cases t <;> rfl
  · intro b
    cases b <;> rfl
  · intro b t
    cases parent
    rfl

/-- Claim C7: writing a fully-populated "has occurred during" reference with
`create_xml_has_occurred_during` and reading it back from the same parent with
`extract_has_occurred_during` (same tag) recovers exactly the chrono
(bottom, top) UUID pair, provided the parent did not already carry a sub-node
of that tag. -/
theorem has_occurred_during_roundtrip (m : RqModel) (parent : XmlNode)
    (b t tag : String) (h : find_tag (some parent) tag = none) :
    extract_has_occurred_during
      (create_xml_has_occurred_during m parent (some (some b, some t)) tag) tag =
      (some b, some t) := by
  cases parent with
  | node ptag pattrs ptext pchildren =>
    have h' : pchildren.find? (fun c => c.tag == tag) = none := by
      simpa [find_tag, XmlNode.children] using h
    have hcreate : create_xml_has_occurred_during m (XmlNode.node ptag pattrs ptext pchildren)
        (some (some b, some t)) tag =
        XmlNode.node ptag pattrs ptext (pchildren ++ [hod_node_for m tag b t]) := rfl
    have hpred : (fun c => XmlNode.tag c == tag) (hod_node_for m tag b t) = true := by
      simp [hod_node_for, XmlNode.tag]
    have hfind : find_tag
        (some (XmlNode.node ptag pattrs ptext (pchildren ++ [hod_node_for m tag b t]))) tag =
        some (hod_node_for m tag b t) := by
      show (pchildren ++ [hod_node_for m tag b t]).find? (fun c => c.tag == tag) =
        some (hod_node_for m tag b t)
      rw [List.find?_append, h', Option.none_or, List.find?_singleton, if_pos hpred]
    rw [hcreate]
    unfold extract_has_occurred_during
    rw [hfind]
    rfl

/-- Witness for claim C7 at a concrete parent, model and pair. -/
theorem has_occurred_during_roundtrip_witness :
    extract_has_occurred_during
      (create_xml_has_occurred_during ⟨[("b-uuid", "base title")]⟩
        (XmlNode.node "Interp" [] "" []) (some (some "b-uuid", some "t-uuid"))
        "HasOccuredDuring") "HasOccuredDuring" = (some "b-uuid", some "t-uuid") :=
  has_occurred_during_roundtrip ⟨[("b-uuid", "base title")]⟩
    (XmlNode.node "Interp" [] "" []) "b-uuid" "t-uuid" "HasOccuredDuring" rfl

/-- Claim C9: unit validation never fails — every input, recognised or not,
maps into the canonical units dictionary; recognised strings map to their
canonical form (case-insensitively when `case_sensitive` is false), and
`None`, empty or unrecognised input maps to the dimensionless `Euc`. -/
theorem validate_uom_total_and_examples :
    (∀ (s : Option String) (cs : Bool), validate_uom_from_string s cs ∈ uom_dictionary) ∧
    uom_dictionary.all (fun u => validate_uom_from_string (some u) true == u) = true ∧
    validate_uom_from_string (some "gapi") false = "gAPI" ∧
    validate_uom_from_string (some "gapi") true = "Euc" ∧
    validate_uom_from_string none false = "Euc" ∧
    validate_uom_from_string (some "") true = "Euc" ∧
    validate_uom_from_string (some "foobar") true = "Euc" ∧
    validate_uom_from_string (some "M") false = "m" ∧
    validate_uom_from_string (some "GAL[UK]/MI") false = "gal[UK]/mi" := by
  refine ⟨?_, by decide, by decide, by decide, by decide, by decide, by decide,
    by decide, by decide⟩
  intro s cs
  have heuc : "Euc" ∈ uom_dictionary := by decide
  cases s with
  | none => exact heuc
  | some str =>
    show (if str = "" then "Euc"
      else if cs then (if uom_dictionary.contains str then str else "Euc")
      else match uom_dictionary.find? fun u => str_lower u == str_lower str with
        | some u => u
        | none => "Euc") ∈ uom_dictionary
    by_cases hempty : str = ""
    · rw [if_pos hempty]
      exact heuc
    · rw [if_neg hempty]
      cases cs with
      | true =>
        rw [if_pos rfl]
        by_cases hc : uom_dictionary.contains str = true
        · rw [if_pos hc]
          exact List.mem_of_elem_eq_true hc
        · rw [if_neg hc]
          exact heuc
      | false =>
        rw [if_neg Bool.false_ne_true]
        cases hf : uom_dictionary.find? fun u => str_lower u == str_lower str with
        | some u => exact List.mem_of_find?_eq_some hf
        | none => exact heuc

/-! The bespoke property-kind scenario of
`tests/test_property.py::test_bespoke_property_kind`. -/

def em_ex : MetaDict := [("something", "important"), ("and_another_thing", "42")]

def pk1_ex : PropertyKind := ⟨"my kind of property", "continuous", em_ex⟩

def pk2_ex : PropertyKind := ⟨"my kind of property", "continuous", em_ex⟩

def pk3_ex : PropertyKind := ⟨"your kind of property", "continuous", em_ex⟩

def pk4_ex : PropertyKind := ⟨"my kind of property", "continuous", []⟩

def pk5_ex : PropertyKind := ⟨"my kind of property", "discrete", em_ex⟩

def pk6_ex : PropertyKind := ⟨"my kind of property", "continuous", []⟩

def pk_seq_ex : List PropertyKind := [pk1_ex, pk2_ex, pk3_ex, pk4_ex, pk5_ex, pk6_ex]

/-- Claim C4, counterexample: pk1 and pk5 of the repository's own test share
title and extra metadata and differ only in their declared parent
(`continuous` by default vs `discrete`), yet they are not judged equivalent —
registering pk5 after pk1 yields four registered kinds where the claim's
title-and-metadata-only rule would yield three (the test asserts four). -/
theorem pk_parent_counterexample :
    (pk1_ex.title == pk5_ex.title) = true ∧
    dict_eq pk1_ex.extra_metadata pk5_ex.extra_metadata = true ∧
    (pk1_ex.parent_property_kind == pk5_ex.parent_property_kind) = false ∧
    pk_is_equivalent pk1_ex pk5_ex = false ∧
    pk_is_equivalent_spec pk1_ex pk5_ex = true ∧
    (register_all_pk pk_is_equivalent (pk_seq_ex.take 5)).length = 4 ∧
    (register_all_pk pk_is_equivalent_spec (pk_seq_ex.take 5)).length = 3 := by
  decide

/-- Claim C4 (amended): the PropertyKind equivalence rule compares title,
extra metadata AND the declared parent property kind (which defaults to
`continuous`); two kinds with the same title and metadata but different
declared parents are not equivalent, and replaying the test's six
registrations yields the part counts 1, 1, 2, 3, 4, 4 that the test asserts. -/
theorem pk_equivalence_requires_parent :
    (∀ a b : PropertyKind, pk_is_equivalent a b = true ↔
      (a.title = b.title ∧ a.parent_property_kind = b.parent_property_kind ∧
        dict_eq a.extra_metadata b.extra_metadata = true)) ∧
    [1, 2, 3, 4, 5, 6].map
      (fun n => (register_all_pk pk_is_equivalent (pk_seq_ex.take n)).length) =
      [1, 1, 2, 3, 4, 4] := by
  refine ⟨?_, by decide⟩
  intro a b
  simp [pk_is_equivalent, Bool.and_eq_true, and_assoc]

/-- The first entry holding a given value determines `get_index_for_string`
when that value is mapped by exactly one key. -/
theorem find?_value_unique {k : Nat} {v : String} :
    ∀ {l : List (Nat × String)}, (k, v) ∈ l → (∀ kv ∈ l, kv.2 = v → kv.1 = k) →
      (l.find? fun kv => kv.2 == v).map Prod.fst = some k := by
  intro l
  induction l with
  | nil => intro h _; cases h
  | cons a l ih =>
    intro hmem huniq
    by_cases ha : a.2 = v
    · rw [List.find?_cons_of_pos _ (by simp [ha])]
      have := huniq a (List.mem_cons_self _ _) ha
      simp [this]
    · rw [List.find?_cons_of_neg _ (by simp [ha])]
      rcases List.mem_cons.mp hmem with heq | htail
      · exact absurd (congrArg Prod.snd heq.symm) ha
      · exact ih htail fun kv hkv => huniq kv (List.mem_cons_of_mem _ hkv)

/-- For a well-formed dense lookup, every index below the entry count is a
key: the distinct keys all lie below the count, so they exhaust the range. -/
theorem dense_keys_complete {keys : List Nat} (hnd : keys.Nodup)
    (hlt : ∀ k ∈ keys, k < keys.length) : ∀ k, k < keys.length → k ∈ keys := by
  intro k hk
  have hsub : keys.toFinset ⊆ Finset.range keys.length := by
    intro x hx
    exact Finset.mem_range.mpr (hlt x (List.mem_toFinset.mp hx))
  have hcard : (Finset.range keys.length).card ≤ keys.toFinset.card := by
    rw [Finset.card_range, List.toFinset_card_of_nodup hnd]
  have heq := Finset.eq_of_subset_of_card_le hsub hcard
  have : k ∈ keys.toFinset := heq ▸ Finset.mem_range.mpr hk
  exact List.mem_toFinset.mp this

/-- Claim C8: `get_string` answers `some v` for every inserted key and `none`
for every absent integer, `get_index_for_string` recovers the key of a
uniquely-mapped string, the mapping is stored densely exactly when its keys
are `0 .. n-1`, and the dense representation answers every lookup exactly as
the sparse one. -/
theorem string_lookup_spec (sl : StringLookup)
    (hnd : (sl.int_to_str.map Prod.fst).Nodup) :
    (∀ k v, (k, v) ∈ sl.int_to_str → sl.get_string k = some v) ∧
    (∀ k, k ∉ sl.int_to_str.map Prod.fst → sl.get_string k = none) ∧
    (∀ k v, (k, v) ∈ sl.int_to_str → (∀ kv ∈ sl.int_to_str, kv.2 = v → kv.1 = k) →
      sl.get_index_for_string v = some k) ∧
    (sl.stored_as_list = true ↔
      ∀ k, k ∈ sl.int_to_str.map Prod.fst ↔ k < sl.int_to_str.length) ∧
    (sl.stored_as_list = true → ∀ k, sl.str_list[k]? = dict_get k sl.int_to_str) := by
  have hlen : (sl.int_to_str.map Prod.fst).length = sl.int_to_str.length :=
    List.length_map _ _
  have hdense : sl.stored_as_list = true →
      ∀ k, sl.str_list[k]? = dict_get k sl.int_to_str := by
    intro hst k
    have hall : ∀ kv ∈ sl.int_to_str, kv.1 < sl.int_to_str.length :=
      fun kv hkv => by simpa using (List.all_eq_true.mp hst) kv hkv
    by_cases hk : k < sl.int_to_str.length
    · have hkeys : k ∈ sl.int_to_str.map Prod.fst := by
        refine dense_keys_complete hnd ?_ k (by rwa [hlen])
        intro x hx
        obtain ⟨kv, hkv, rfl⟩ := List.mem_map.mp hx
        rw [hlen]
        exact hall kv hkv
      obtain ⟨v, hv⟩ : ∃ v, dict_get k sl.int_to_str = some v := by
        cases hg : dict_get k sl.int_to_str with
        | none => exact absurd (dict_get_eq_none.mp hg) (by simp [hkeys])
        | some v => exact ⟨v, rfl⟩
      rw [StringLookup.str_list, List.getElem?_map, List.getElem?_range hk]
      simp [hv]
    · have hlist : sl.str_list.length = sl.int_to_str.length := by
        rw [StringLookup.str_list, List.length_map, List.length_range]
      rw [List.getElem?_eq_none (by omega)]
      rw [eq_comm, dict_get_eq_none]
      intro hmem
      obtain ⟨kv, hkv, rfl⟩ := List.mem_map.mp hmem
      exact hk (hall kv hkv)
  have hget : ∀ k, sl.get_string k = dict_get k sl.int_to_str := by
    intro k
    rw [StringLookup.get_string]
    by_cases hst : sl.stored_as_list = true
    · rw [if_pos hst, hdense hst k]
    · rw [if_neg hst]
  refine ⟨?_, ?_, ?_, ?_, hdense⟩
  · intro k v hmem
    rw [hget]
    exact dict_get_of_mem_nodup hnd hmem
  · intro k hmem
    rw [hget]
    exact dict_get_eq_none.mpr hmem
  · intro k v hmem huniq
    exact find?_value_unique hmem huniq
  · constructor
    · intro hst k
      have hall : ∀ kv ∈ sl.int_to_str, kv.1 < sl.int_to_str.length :=
        fun kv hkv => by simpa using (List.all_eq_true.mp hst) kv hkv
      constructor
      · intro hk
        obtain ⟨kv, hkv, rfl⟩ := List.mem_map.mp hk
        exact hall kv hkv
      · intro hk
        exact dense_keys_complete hnd
          (fun x hx => by
            obtain ⟨kv, hkv, rfl⟩ := List.mem_map.mp hx
            rw [hlen]
            exact hall kv hkv) k (by rwa [hlen])
    · intro h
      rw [StringLookup.stored_as_list, List.all_eq_true]
      intro kv hkv
      have : kv.1 ∈ sl.int_to_str.map Prod.fst := List.mem_map.mpr ⟨kv, hkv, rfl⟩
      simpa using (h kv.1).mp this

/-- Witness for claim C8 at the mapping of the repository's string-lookup
test: `{1: peaty, 2: muddy, 3: sandy, 4: granite}`. -/
theorem string_lookup_spec_witness :
    StringLookup.get_string ⟨[(1, "peaty"), (2, "muddy"), (3, "sandy"), (4, "granite")]⟩ 3 =
      some "sandy" ∧
    StringLookup.get_index_for_string
      ⟨[(1, "peaty"), (2, "muddy"), (3, "sandy"), (4, "granite")]⟩ "muddy" = some 2 ∧
    StringLookup.get_string ⟨[(1, "peaty"), (2, "muddy"), (3, "sandy"), (4, "granite")]⟩ 999 =
      none := by
  have h := string_lookup_spec ⟨[(1, "peaty"), (2, "muddy"), (3, "sandy"), (4, "granite")]⟩
    (by decide)
  exact ⟨h.1 3 "sandy" (by decide), h.2.2.1 2 "muddy" (by decide) (by decide),
    h.2.1 999 (by decide)⟩

/-! The three-part interconnected store of spec section 8: a trajectory
referencing a datum and a CRS, the datum referencing the same CRS. -/

def crs_part : Part := ⟨1, "LocalDepth3dCrs", "crs", []⟩

def datum_part : Part := ⟨2, "MdDatum", "datum", [1]⟩

def traj_part : Part := ⟨3, "WellboreTrajectoryRepresentation", "traj", [2, 1]⟩

def three_part_store : List Part := [crs_part, datum_part, traj_part]

/-- Claim C3, counterexample: on the three-part store every part is
transitively connected to the datum over the undirected reference adjacency,
yet `as_graph` seeded with the datum's identifier returns exactly one node
(the datum itself) and no edges — the subset restricts the graph instead of
being traversed from, exactly as `tests/test_model.py::test_model_as_graph`
asserts (one node, zero edges). -/
theorem as_graph_seed_counterexample :
    three_part_store.all
      (fun p => (reachable_uuids three_part_store [2]).contains p.uuid) = true ∧
    (as_graph three_part_store (some [2])).1 = [datum_part] ∧
    (as_graph three_part_store (some [2])).2 = [] ∧
    three_part_store.length = 3 := by
  decide

/-- Claim C3 (amended): `as_graph(uuids_subset)` restricts the graph to the
given identifiers rather than traversing from them — its nodes are exactly
the store's parts with identifier in the subset and every edge has both ends
in the subset; on the three-part store the full call yields all 3 nodes and
3 edges while the datum-seeded call yields exactly 1 node and no edges. -/
theorem as_graph_subset_restricts :
    (∀ (store : List Part) (subset : List Nat),
      (as_graph store (some subset)).1 =
        store.filter (fun p => subset.contains p.uuid) ∧
      (as_graph store (some subset)).2.all
        (fun e => subset.contains e.1 && subset.contains e.2) = true) ∧
    (as_graph three_part_store none).1.length = 3 ∧
    (as_graph three_part_store none).2.length = 3 ∧
    (as_graph three_part_store (some [2])).1.length = 1 ∧
    (as_graph three_part_store (some [2])).2 = [] := by
  refine ⟨?_, by decide, by decide, by decide, by decide⟩
  intro store subset
  refine ⟨rfl, ?_⟩
  rw [List.all_eq_true]
  intro e he
  have he' := List.mem_dedup.mp he
  obtain ⟨p, hp, hpe⟩ := List.mem_flatMap.mp he'
  obtain ⟨r, _, hr⟩ := List.mem_filterMap.mp hpe
  have hpsub : subset.contains p.uuid = true := (List.mem_filter.mp hp).2
  by_cases hrs : subset.contains r = true
  · rw [if_pos hrs] at hr
    injection hr with hr
    rw [← hr, norm_pair]
    by_cases hle : p.uuid ≤ r
    · rw [if_pos hle]
      simp only [Bool.and_eq_true]
      exact ⟨hpsub, hrs⟩
    · rw [if_neg hle]
      simp only [Bool.and_eq_true]
      exact ⟨hrs, hpsub⟩
  · rw [if_neg hrs] at hr
    cases hr

/-! Lemmas about the consolidation mapping table. -/

theorem apply_map_cons (a b : Nat) (m : List (Nat × Nat)) (r : Nat) :
    apply_map ((a, b) :: m) r = if a = r then b else apply_map m r := by
  rw [apply_map, dict_get]
  by_cases h : a = r
  · rw [if_pos h, if_pos h, Option.getD_some]
  · rw [if_neg h, if_neg h, apply_map]

/-- When no donor part has an equivalent in the target, the mapping table is
the identity on every identifier. -/
theorem apply_map_id {target : List Part} {equiv : Part → Part → Bool} :
    ∀ {ps : List Part}, (∀ p ∈ ps, target.find? (equiv_match equiv p) = none) →
      ∀ r, apply_map (consolidation_map target ps equiv) r = r := by
  intro ps
  induction ps with
  | nil => intro _ r; rfl
  | cons p ps ih =>
    intro h r
    have hp := h p (List.mem_cons_self _ _)
    have hcons : consolidation_map target (p :: ps) equiv =
        (p.uuid, p.uuid) :: consolidation_map target ps equiv := by
      simp [consolidation_map, hp]
    rw [hcons, apply_map_cons]
    by_cases hpr : p.uuid = r
    · rw [if_pos hpr, hpr]
    · rw [if_neg hpr]
      exact ih (fun q hq => h q (List.mem_cons_of_mem _ hq)) r

/-- With exactly one donor part `d` equivalent to a target part `s`, the
mapping table rewrites `d`'s identifier to `s`'s and fixes every other
identifier. -/
theorem apply_map_consolidation {target : List Part} {equiv : Part → Part → Bool}
    {d s : Part} (hs : target.find? (equiv_match equiv d) = some s) :
    ∀ {donor : List Part}, (donor.map Part.uuid).Nodup → d ∈ donor →
      (∀ p ∈ donor, p.uuid ≠ d.uuid → target.find? (equiv_match equiv p) = none) →
      ∀ r, apply_map (consolidation_map target donor equiv) r =
        if r = d.uuid then s.uuid else r := by
  intro donor
  induction donor with
  | nil => intro _ hd; cases hd
  | cons p ps ih =>
    intro hnd hd honly r
    rw [List.map_cons, List.nodup_cons] at hnd
    by_cases hpd : p.uuid = d.uuid
    · have hpd' : p = d := by
        rcases List.mem_cons.mp hd with h | h
        · exact h.symm
        · exact absurd (hpd ▸ List.mem_map.mpr ⟨d, h, rfl⟩) hnd.1
      subst hpd'
      have hcons : consolidation_map target (p :: ps) equiv =
          (p.uuid, s.uuid) :: consolidation_map target ps equiv := by
        simp [consolidation_map, hs]
      rw [hcons, apply_map_cons]
      by_cases hr : p.uuid = r
      · rw [if_pos hr, if_pos hr.symm]
      · rw [if_neg hr, if_neg (fun hc => hr hc.symm)]
        refine apply_map_id ?_ r
        intro q hq
        refine honly q (List.mem_cons_of_mem _ hq) ?_
        intro hq'
        exact hnd.1 (hq' ▸ List.mem_map.mpr ⟨q, hq, rfl⟩)
    · have hpnone := honly p (List.mem_cons_self _ _) hpd
      have hcons : consolidation_map target (p :: ps) equiv =
          (p.uuid, p.uuid) :: consolidation_map target ps equiv := by
        simp [consolidation_map, hpnone]
      rw [hcons, apply_map_cons]
      have hd' : d ∈ ps := by
        rcases List.mem_cons.mp hd with h | h
        · exact absurd (congrArg Part.uuid h.symm) hpd
        · exact h
      by_cases hr : p.uuid = r
      · rw [if_pos hr, if_neg (fun hc => hpd (hr.trans hc)), hr]
      · rw [if_neg hr]
        exact ih hnd.2 hd' (fun q hq hqd => honly q (List.mem_cons_of_mem _ hq) hqd) r

/-- The donor parts surviving the equivalence search are exactly those other
than the one duplicate. -/
theorem filter_dup_eq {target donor : List Part} {equiv : Part → Part → Bool}
    {d s : Part} (hnd : (donor.map Part.uuid).Nodup) (hd : d ∈ donor)
    (hs : target.find? (equiv_match equiv d) = some s)
    (honly : ∀ p ∈ donor, p.uuid ≠ d.uuid → target.find? (equiv_match equiv p) = none) :
    (donor.filter fun p => (target.find? (equiv_match equiv p)).isNone) =
      donor.filter fun p => p.uuid != d.uuid := by
  apply List.filter_congr
  intro p hp
  by_cases hpd : p.uuid = d.uuid
  · have hp' : p = d := List.inj_on_of_nodup_map hnd hp hd hpd
    rw [hp', hs]
    simp [hpd, hp']
  · rw [honly p hp hpd]
    simp [hpd]

/-- Dropping the unique part with a given identifier shortens the list by
exactly one. -/
theorem length_filter_ne {d : Part} :
    ∀ {donor : List Part}, (donor.map Part.uuid).Nodup → d ∈ donor →
      (donor.filter fun p => p.uuid != d.uuid).length = donor.length - 1 := by
  intro donor
  induction donor with
  | nil => intro _ h; cases h
  | cons p ps ih =>
    intro hnd hd
    rw [List.map_cons, List.nodup_cons] at hnd
    by_cases hpd : p.uuid = d.uuid
    · rw [List.filter_cons, if_neg (by simp [hpd])]
      have hall : (ps.filter fun q => q.uuid != d.uuid) = ps := by
        refine List.filter_eq_self.mpr ?_
        intro q hq
        have : q.uuid ≠ d.uuid := by
          intro hh
          exact hnd.1 ((hpd.trans hh.symm) ▸ List.mem_map.mpr ⟨q, hq, rfl⟩)
        simp [this]
      rw [hall]
      simp
    · have hd' : d ∈ ps := by
        rcases List.mem_cons.mp hd with h | h
        · exact absurd (congrArg Part.uuid h.symm) hpd
        · exact h
      rw [List.filter_cons, if_pos (by simp [hpd]), List.length_cons, ih hnd.2 hd']
      have := List.length_pos_of_mem hd'
      simp only [List.length_cons]
      omega

/-- Claim C1: with consolidation on and the donor containing exactly one part
`d` equivalent to a part `s` already in the target, `copy_parts` returns the
target followed by the remaining donor parts with every reference to `d`
rewritten to `s`; the part count is the original plus the donor count minus
one, and no reference anywhere in the result still points at the elided
duplicate. -/
theorem copy_parts_consolidate_spec (target donor : List Part)
    (equiv : Part → Part → Bool) (d s : Part)
    (hnodup : ((target ++ donor).map Part.uuid).Nodup)
    (hd : d ∈ donor)
    (hs : target.find? (equiv_match equiv d) = some s)
    (honly : ∀ p ∈ donor, p.uuid ≠ d.uuid → target.find? (equiv_match equiv p) = none)
    (hnoref : ∀ q ∈ target, d.uuid ∉ q.refs) :
    copy_parts target donor true equiv =
      target ++ (donor.filter fun p => p.uuid != d.uuid).map
        (fun p => { p with refs := p.refs.map fun r => if r = d.uuid then s.uuid else r }) ∧
    (copy_parts target donor true equiv).length = target.length + donor.length - 1 ∧
    ∀ q ∈ copy_parts target donor true equiv, d.uuid ∉ q.refs := by
  rw [List.map_append, List.nodup_append] at hnodup
  obtain ⟨hndt, hndd, hdisj⟩ := hnodup
  have hfun : apply_map (consolidation_map target donor equiv) =
      fun r => if r = d.uuid then s.uuid else r :=
    funext (apply_map_consolidation hs hndd hd honly)
  have hmain : copy_parts target donor true equiv =
      target ++ (donor.filter fun p => p.uuid != d.uuid).map
        (fun p => { p with refs := p.refs.map fun r => if r = d.uuid then s.uuid else r }) := by
    simp only [copy_parts, if_pos rfl]
    rw [filter_dup_eq hndd hd hs honly, hfun]
    rw [if_pos trivial]
  have hsd : s.uuid ≠ d.uuid := by
    intro hc
    exact hdisj (List.mem_map.mpr ⟨s, List.mem_of_find?_eq_some hs, rfl⟩)
      (hc ▸ List.mem_map.mpr ⟨d, hd, rfl⟩)
  refine ⟨hmain, ?_, ?_⟩
  · rw [hmain, List.length_append, List.length_map, length_filter_ne hndd hd]
    have := List.length_pos_of_mem hd
    omega
  · intro q hq
    rw [hmain] at hq
    rcases List.mem_append.mp hq with hq | hq
    · exact hnoref q hq
    · obtain ⟨p, _, rfl⟩ := List.mem_map.mp hq
      intro hmem
      obtain ⟨r, _, heq⟩ := List.mem_map.mp hmem
      by_cases hr : r = d.uuid
      · rw [if_pos hr] at heq
        exact hsd heq
      · rw [if_neg hr] at heq
        exact hr heq

/-- The donor's duplicate CRS part of the concrete consolidation scenario. -/
def dup_crs_w : Part := ⟨2, "LocalDepth3dCrs", "crs", []⟩

/-- The target's surviving CRS part of the concrete consolidation scenario. -/
def surviving_crs_w : Part := ⟨1, "LocalDepth3dCrs", "crs", []⟩

/-- A one-part target store: just the surviving CRS. -/
def target_w : List Part := [surviving_crs_w]

/-- A two-part donor store: a duplicate CRS plus a datum referencing it. -/
def donor_w : List Part := [dup_crs_w, ⟨3, "MdDatum", "datum", [2]⟩]

/-- A concrete equivalence classifier for the scenario: same title. -/
def equiv_w : Part → Part → Bool := fun p t => p.title == t.title

/-- Witness for claim C1: a one-part target (a CRS) and a two-part donor (a
duplicate CRS plus a datum referencing it); the duplicate is elided and the
datum's reference is redirected to the surviving CRS. -/
theorem copy_parts_consolidate_spec_witness :
    copy_parts target_w donor_w true equiv_w =
      target_w ++ (donor_w.filter fun p => p.uuid != dup_crs_w.uuid).map
        (fun p => { p with refs := p.refs.map (fun r => if r = dup_crs_w.uuid then surviving_crs_w.uuid else r) }) ∧
    (copy_parts target_w donor_w true equiv_w).length =
      target_w.length + donor_w.length - 1 ∧
    ∀ q ∈ copy_parts target_w donor_w true equiv_w, dup_crs_w.uuid ∉ q.refs :=
  copy_parts_consolidate_spec target_w donor_w equiv_w dup_crs_w surviving_crs_w
    (by decide) (by decide) (by decide) (by decide) (by decide)

end Resqpy
